import Mathlib

/-!
Verification of the dependency-resolution and build-plan generation core of
`gen_build_env.py` (build-noetic-on-jammy-deb).

The Python program is shallowly embedded: each method of `BuildFarm` and each
dataclass becomes a Lean definition over explicit data.  Python `set` objects
are modelled as duplicate-free lists (`setAdd` / `setRemove` / `setUnion`
mirror `set.add`, `set.remove` and `set.update`); a Python `dict` becomes an
insertion-ordered association list; ElementTree objects are modelled as their
parsed children (out-of-scope XML parsing mechanics, per the design's scope);
`logging` calls become values of the `Diagnostic` type accumulated beside the
result; exceptions become `Option` / `Except` results.  The recursive resolver
`get_package_dependencies` is embedded fuel-indexed, returning `none` when the
fuel runs out, so that its (non-)termination can be stated.
-/

namespace BuildEnv

/-- One parsed child element of a package's release-descriptor XML: the shape
`{"tag": child.tag, "text": child.text, "attrib": child.attrib}` built by
`BuildFarm.get_xml_data_by_tags`.  `attrib` is the element's attribute
dictionary as an insertion-ordered association list (a dict holds each key at
most once); `text` is the element text (dependency and version tags of a
well-formed `package.xml` carry their payload as text). -/
structure XmlTag where
  tag : String
  text : String
  attrib : List (String × String)
deriving DecidableEq, Repr

/-- The `source` section of a repository entry of the distribution file:
`repo["source"]["url"]` and `repo["source"]["version"]`. -/
structure SourceInfo where
  url : String
  version : String
deriving DecidableEq, Repr

/-- One value of `dist_cache["distribution_file"][0]["repositories"]`.
`releasePackages` is `v["release"]["packages"]` when that key chain exists
(`none` models the absent key, for which the code substitutes the default
`[k]`); `source` is the optional `v["source"]` section. -/
structure RepoInfo where
  releasePackages : Option (List String)
  source : Option SourceInfo
deriving DecidableEq, Repr

/-- The slice of the cached distribution data the resolver and the makefile
generator read: the repository dictionary (insertion-ordered) and the map
`release_package_xmls`, giving a package's parsed release-descriptor children
(`none` models a package name absent from that dictionary). -/
structure DistCache where
  repositories : List (String × RepoInfo)
  releasePackageXmls : String → Option (List XmlTag)

/-- `v.get("release", {}).get("packages", [k])`: the package list of a
repository entry, defaulting to the repository name itself. -/
def effectivePackages (k : String) (v : RepoInfo) : List String :=
  v.releasePackages.getD [k]

/-- `BuildFarm.get_repository`: the first repository whose package list
contains the package, `none` (Python `(None, None)`) when there is none. -/
def getRepository (repos : List (String × RepoInfo)) (packageName : String) :
    Option (String × RepoInfo) :=
  repos.find? (fun kv => packageName ∈ effectivePackages kv.1 kv.2)

/-- `BuildFarm.get_xml_data_by_tags`: `[]` when the package has no release
descriptor, otherwise the descriptor's children whose tag is in `tags`. -/
def getXmlDataByTags (db : DistCache) (packageName : String) (tags : List String) :
    List XmlTag :=
  match db.releasePackageXmls packageName with
  | none => []
  | some children => children.filter (fun c => c.tag ∈ tags)

/-- `BuildFarm.get_package_version`: the text of the first `version` tag; the
`try ... except` yields `None` when there is no such tag (in particular when
the whole descriptor is missing). -/
def getPackageVersion (db : DistCache) (packageName : String) : Option String :=
  (getXmlDataByTags db packageName ["version"]).head?.map (fun d => d.text)

/-- The seven dependency tag kinds `get_dependencies` recognises. -/
def dependencyTags : List String :=
  ["depend", "build_depend", "buildtool_depend", "run_depend", "exec_depend",
   "build_export_depend", "test_depend"]

/-- `BuildFarm.get_dependencies`: every dependency-tagged child of the
package's release descriptor. -/
def getDependencies (db : DistCache) (packageName : String) : List XmlTag :=
  getXmlDataByTags db packageName dependencyTags

/-! ### Python `set` objects, modelled as duplicate-free lists -/

/-- `s.add(x)`: a no-op when `x` is present, else `x` joins the set. -/
def setAdd (s : List String) (x : String) : List String :=
  if x ∈ s then s else s ++ [x]

/-- `s.remove(x)` on a set holding `x` at most once. -/
def setRemove (s : List String) (x : String) : List String :=
  s.filter (fun y => y ≠ x)

/-- `s.update(t)`: every member of `t` is added in turn. -/
def setUnion (s t : List String) : List String :=
  t.foldl setAdd s

theorem mem_setAdd {s : List String} {x y : String} :
    y ∈ setAdd s x ↔ y = x ∨ y ∈ s := by
  unfold setAdd
  split
  · next h =>
    refine ⟨fun hy => Or.inr hy, ?_⟩
    rintro (rfl | hy)
    · exact h
    · exact hy
  · simp [or_comm]

theorem mem_setRemove {s : List String} {x y : String} :
    y ∈ setRemove s x ↔ y ∈ s ∧ y ≠ x := by
  simp [setRemove]

theorem mem_setUnion {s t : List String} {y : String} :
    y ∈ setUnion s t ↔ y ∈ s ∨ y ∈ t := by
  induction t generalizing s with
  | nil => simp [setUnion]
  | cons a t ih =>
    show y ∈ setUnion (setAdd s a) t ↔ _
    rw [ih, mem_setAdd]
    simp only [List.mem_cons]
    tauto

/-! ### Qualifier evaluation on dependency edges -/

/-- Python `v.split(" ")` on the character list: splitting on every single
space, keeping empty fields, never yielding an empty list (structurally
recursive so that it evaluates inside the kernel, unlike `String.splitOn`). -/
def splitChars : List Char → List (List Char)
  | [] => [[]]
  | c :: cs =>
    let rest := splitChars cs
    if c = ' ' then [] :: rest
    else (c :: rest.headD []) :: rest.tail

/-- `v.split(" ")`, as strings. -/
def pySplitSpace (v : String) : List String :=
  (splitChars v.toList).map List.asString

/-- `v.split(" ")[-1]`: the last token of the attribute value (the split list
is never empty, so the default is unreachable). -/
def lastToken (v : String) : String :=
  (pySplitSpace v).getLastD ""

/-- The two comparisons `version.parse(a) >= version.parse(b)` and
`version.parse(a) > version.parse(b)` of the `packaging` library, kept
abstract (they feed diagnostics only); modelled total. -/
structure VersionOracle where
  geB : String → String → Bool
  gtB : String → String → Bool

/-- The logger calls of the embedded methods, as values. -/
inductive Diagnostic where
  | versionBound (dep required actual : String)
  | unknownAttribute (key value dep : String)
  | skipDuplicatedTarget (target : String)
  | packageNamesNotFound (dist : String)
  | unknownPackageNameFormat
deriving DecidableEq, Repr

/-- One iteration of the attribute loop of `get_package_dependencies` for the
edge naming `depName`: a `condition` whose last token is not `"3"` removes the
name from the working set (and `continue`s); `version_gte` / `version_gt` are
compared against the dependency's own declared version when that resolves,
warning on an out-of-bound case but never touching the set; a passing
`condition` falls through to `pass`; any other key warns. -/
def stepAttrib (vor : VersionOracle) (pkgVersion : String → Option String)
    (depName : String) (st : List String × List Diagnostic) (kv : String × String) :
    List String × List Diagnostic :=
  if kv.1 = "condition" ∧ lastToken kv.2 ≠ "3" then
    (setRemove st.1 depName, st.2)
  else if kv.1 = "version_gte" then
    match pkgVersion depName with
    | none => st
    | some pv =>
      if vor.geB kv.2 pv then (st.1, st.2 ++ [.versionBound depName kv.2 pv]) else st
  else if kv.1 = "version_gt" then
    match pkgVersion depName with
    | none => st
    | some pv =>
      if vor.gtB kv.2 pv then (st.1, st.2 ++ [.versionBound depName kv.2 pv]) else st
  else if kv.1 = "condition" then st
  else (st.1, st.2 ++ [.unknownAttribute kv.1 kv.2 depName])

/-- One iteration of the edge loop: `depends.add(dep_name)` followed by the
attribute loop. -/
def processEdge (vor : VersionOracle) (pkgVersion : String → Option String)
    (st : List String × List Diagnostic) (d : XmlTag) :
    List String × List Diagnostic :=
  d.attrib.foldl (stepAttrib vor pkgVersion d.text) (setAdd st.1 d.text, st.2)

/-- The whole edge loop of `get_package_dependencies`, from the empty set. -/
def processDepends (vor : VersionOracle) (pkgVersion : String → Option String)
    (edges : List XmlTag) : List String × List Diagnostic :=
  edges.foldl (processEdge vor pkgVersion) ([], [])

/-- `get_package_dependencies(p, recursive=False)`: the working set after the
edge loop, with no recursive expansion. -/
def getPackageDependenciesNR (db : DistCache) (vor : VersionOracle) (p : String) :
    List String :=
  (processDepends vor (getPackageVersion db) (getDependencies db p)).1

/-- The recursive loop `for key in list(depends): if key not in ignore_depends:
child = get_package_dependencies(key, depends); depends.update(child)`.  The
key list is the snapshot taken at loop entry; the child call receives the
*current* working set as its exclusion set and its result is unioned in.
`recur` is the fuel-smaller recursive call; `none` propagates fuel exhaustion. -/
def resolveList (recur : String → List String → Option (List String))
    (excl : List String) : List String → List String → Option (List String)
  | [], depends => some depends
  | key :: keys, depends =>
    if key ∈ excl then resolveList recur excl keys depends
    else
      match recur key depends with
      | none => none
      | some child => resolveList recur excl keys (setUnion depends child)

/-- `BuildFarm.get_package_dependencies(p, ignore_depends, recursive=True)`,
fuel-indexed: `none` models a computation that has not terminated within
`fuel` nested calls.  Each recursive call is one fuel step down. -/
def getPackageDependenciesFuel (db : DistCache) (vor : VersionOracle) :
    Nat → String → List String → Option (List String)
  | 0, _, _ => none
  | fuel + 1, p, excl =>
    let depends := getPackageDependenciesNR db vor p
    resolveList (getPackageDependenciesFuel db vor fuel) excl depends depends

/-! ### Package classification (`classify_packages`) -/

/-- A reference-table entry under a package name: the value of
`dist_base[n].get("ubuntu")` is either a flat list of OS package names or a
mapping keyed by OS distribution whose values are lists or YAML `null`. -/
inductive RefVal where
  | pkglist (pkgs : List String)
  | distmap (m : List (String × Option (List String)))
deriving DecidableEq, Repr

/-- The per-OS dictionary a reference table holds under one package name;
a key mapped to `none` models YAML `null` (Python `.get` cannot tell it from
an absent key). -/
abbrev TableEntry := List (String × Option RefVal)

/-- A whole reference table (`base.yaml` / `python.yaml`): an
insertion-ordered dictionary from package name to its per-OS entry. -/
abbrev RefTable := List (String × TableEntry)

/-- Dictionary lookup (`d[k]` / `d.get(k)`) on an association list. -/
def lookupA {α : Type} (l : List (String × α)) (k : String) : Option α :=
  (l.find? (fun kv => kv.1 = k)).map (fun kv => kv.2)

/-- `set(table.keys())`. -/
def tableKeys (t : RefTable) : Finset String :=
  (t.map Prod.fst).toFinset

/-- `BuildFarm.classify_packages`: `(base_keys ∩ packages,
python_keys ∩ packages, packages - base_packages - python_packages)`. -/
def classifyPackages (base python : RefTable) (packages : Finset String) :
    Finset String × Finset String × Finset String :=
  let basePackages := tableKeys base ∩ packages
  let pythonPackages := tableKeys python ∩ packages
  (basePackages, pythonPackages, (packages \ basePackages) \ pythonPackages)

/-! ### OS package-name mapping (`get_package_names`) -/

/-- `dist_base[n].get("ubuntu")` (the OS name is the literal `"ubuntu"` in the
code): `none` on a missing `"ubuntu"` key or a `null` value; KeyError on a
missing package name is the `Except.error`. -/
def osEntry (t : RefTable) (n : String) : Except Unit (Option RefVal) :=
  match lookupA t n with
  | none => .error ()
  | some entry => .ok ((lookupA entry "ubuntu").join)

/-- One iteration of the entry loop of `get_package_names`.  A flat list is
taken verbatim; a per-distribution mapping is consulted at the exact target
distribution first (`pkgs.update(None)` on a `null` value there is the
`TypeError`, modelled `Except.error`), then at the wildcard `"*"` (an explicit
`null` wildcard contributes nothing, silently); a mapping with neither key
warns and contributes nothing; a `None` entry warns `unknown package name
format`. -/
def processEntry (dist : String) (st : List String × List Diagnostic)
    (p : Option RefVal) : Except Unit (List String × List Diagnostic) :=
  match p with
  | some (.pkglist l) => .ok (setUnion st.1 l, st.2)
  | some (.distmap m) =>
    match lookupA m dist with
    | some (some l) => .ok (setUnion st.1 l, st.2)
    | some none => .error ()
    | none =>
      match lookupA m "*" with
      | some (some l) => .ok (setUnion st.1 l, st.2)
      | some none => .ok st
      | none => .ok (st.1, st.2 ++ [.packageNamesNotFound dist])
  | none => .ok (st.1, st.2 ++ [.unknownPackageNameFormat])

/-- `BuildFarm.get_package_names(base_dep, python_dep)`: the two entry lists
are materialised first (a missing table key raises there), then folded into
one OS package-name set. -/
def getPackageNames (base python : RefTable) (dist : String)
    (baseDep pythonDep : List String) :
    Except Unit (List String × List Diagnostic) := do
  let basePkgs ← baseDep.mapM (osEntry base)
  let pythonPkgs ← pythonDep.mapM (osEntry python)
  (basePkgs ++ pythonPkgs).foldlM (processEntry dist) ([], [])

/-! ### Makefile generation (`MakefileTarget`, `GitRepository`,
`BuildPackage`, `gen_makefile`) -/

/-- The `MakefileTarget` dataclass.  `aliasName` embeds the `alias` field
(renamed: `alias` is a Lean command keyword). -/
structure MakefileTarget where
  target : String
  depends : List String := []
  commands : List String := []
  comment : String := ""
  phony : Bool := false
  aliasName : Option String := none
deriving DecidableEq, Repr

/-- One element of the accumulated `makefile_targets` list: either a raw
comment string or a `MakefileTarget`. -/
inductive MakeItem where
  | raw (s : String)
  | tgt (t : MakefileTarget)
deriving DecidableEq, Repr

/-- The `GitRepository` dataclass (paths as plain strings). -/
structure GitRepository where
  name : String
  url : String
  baseDir : String := "."
  branch : Option String := none
  recursive : Bool := true
deriving DecidableEq, Repr

/-- `GitRepository.makefile_target`: the clone target keyed by the `.git`
marker path. -/
def GitRepository.cloneTarget (r : GitRepository) : MakefileTarget :=
  { target := r.baseDir ++ "/" ++ r.name ++ "/.git",
    commands :=
      ["git clone " ++ r.url ++ " `dirname $@`"
        ++ (match r.branch with
            | some b => " -b " ++ b
            | none => "")
        ++ (if r.recursive then " --recursive" else "")] }

/-- `GitRepository.repo_dir`. -/
def GitRepository.repoDir (r : GitRepository) : String :=
  r.baseDir ++ "/" ++ r.name

/-- `BuildPackage.makefile_targets` after `__post_init__`: the clone target,
then the build target with the clone marker inserted first among its
prerequisites. -/
def buildPackageTargets (repo : GitRepository) (t : MakefileTarget) : List MakeItem :=
  [.tgt repo.cloneTarget,
   .tgt { t with depends := repo.cloneTarget.target :: t.depends }]

/-- `pkg.replace("_", "-")` for the single-character arguments the generator
uses (a character map; structurally recursive so that it evaluates inside the
kernel, unlike `String.replace`). -/
def dashed (s : String) : String :=
  (s.toList.map (fun c => if c = '_' then '-' else c)).asString

/-- The progress-report command of the aggregate `all` target, around the
expected artifact total. -/
def progressCommand (total : Nat) : String :=
  "@echo built packages : `ls -1 /tmp/deb/* | wc -l` / " ++ toString total

/-- The `ros_release_python` bootstrap tool entry of
`python_build_packages`. -/
def rosReleasePythonItems (buildDir : String) : List MakeItem :=
  buildPackageTargets
    { name := "ros_release_python",
      url := "https://github.com/ros-infrastructure/ros_release_python.git",
      baseDir := buildDir }
    { target := "/usr/local/bin/ros_release_python",
      commands := ["ln -sf " ++ buildDir ++ "/ros_release_python/scripts/ros_release_python $@"] }

/-- The fixed four-package bootstrap ladder `python_packages`. -/
def pythonPackagesLadder : List (String × List String) :=
  [("catkin_pkg", []), ("rospkg", ["catkin_pkg"]),
   ("rosdistro", ["rospkg"]), ("rosdep", ["rosdistro"])]

/-- The two makefile items one ladder entry contributes. -/
def pythonPackageItems (buildDir : String) (envDep : List String)
    (pkg : String) (dep : List String) : List MakeItem :=
  buildPackageTargets
    { name := pkg,
      url := "https://github.com/ros-infrastructure/" ++ pkg ++ ".git",
      baseDir := buildDir }
    { target := "/tmp/built_packages/" ++ dashed pkg,
      depends := ["/usr/local/bin/ros_release_python"] ++ envDep
        ++ dep.map (fun d => "/tmp/built_packages/" ++ dashed d),
      commands := ["cd `dirname $<` && ros_release_python deb3 && apt-get install -y ./deb_dist/*.deb && mv ./deb_dist/*.deb /tmp/deb && touch $@"] }

/-- Why `gen_makefile` can fail on a build-from-source package: the repository
lookup returned `(None, None)` and `repo["source"]` subscripts `None`
(`repoNotFound`), or the entry found has no `source` section so
`repo["source"]` raises KeyError (`noSourceEntry`). -/
inductive GenError where
  | repoNotFound (pkg : String)
  | noSourceEntry (pkg : String)
deriving DecidableEq, Repr

/-- The per-package group of the `# ROS packages to build` section: first-order
dependencies restricted to the build set, repository lookup, the hard-coded
`rosconsole` fork override, then the clone target and the build-and-mark
target (aliased by the bare package name). -/
def rosPackageItems (db : DistCache) (vor : VersionOracle) (buildDir : String)
    (buildDep : List String) (pkg : String) : Except GenError (List MakeItem) :=
  let dependencies := (getPackageDependenciesNR db vor pkg).filter (fun d => d ∈ buildDep)
  match getRepository db.repositories pkg with
  | none => .error (.repoNotFound pkg)
  | some (repoName, info) =>
    match info.source with
    | none => .error (.noSourceEntry pkg)
    | some src =>
      let url := if repoName = "rosconsole"
        then "https://github.com/twdragon/rosconsole.git" else src.url
      let branch := if repoName = "rosconsole" then "log4cxx-0.12" else src.version
      let repository : GitRepository :=
        { name := repoName, url := url, baseDir := buildDir, branch := some branch }
      .ok (buildPackageTargets repository
        { target := "/tmp/built_packages/" ++ pkg,
          depends := dependencies.map (fun d => "/tmp/built_packages/" ++ d)
            ++ ["/root/.ros/rosdep/sources.cache"],
          commands := ["bash build_ros_package.sh " ++ repository.repoDir ++ " " ++ pkg ++ " && touch $@"],
          aliasName := some pkg })

/-- The final `clean` target. -/
def cleanTarget (buildDir : String) : MakefileTarget :=
  { target := "clean",
    commands := ["rm -rf /tmp/deb /tmp/built_packages " ++ buildDir ++ " /usr/local/bin/ros_release_python /etc/ros/rosdep/sources.list.d/20-default.list"],
    phony := true }

/-- The write loop of `gen_makefile`: raw comment lines pass through; a target
whose identifier was already written is skipped with a diagnostic, otherwise
it is written and its identifier recorded. -/
def writeTargets : List MakeItem → List String → List MakeItem × List Diagnostic
  | [], _ => ([], [])
  | .raw s :: rest, seen =>
    let out := writeTargets rest seen
    (.raw s :: out.1, out.2)
  | .tgt t :: rest, seen =>
    if t.target ∈ seen then
      let out := writeTargets rest seen
      (out.1, .skipDuplicatedTarget t.target :: out.2)
    else
      let out := writeTargets rest (setAdd seen t.target)
      (.tgt t :: out.1, out.2)

/-- The fixed head of the accumulated target list: aggregate `all` target,
environment scaffolding, python build tooling and the bootstrap ladder. -/
def headItems (rosDistribution : String) (mainTargets : List String)
    (buildDepCount : Nat) : List MakeItem :=
  let buildDir := "/root/" ++ rosDistribution ++ "_build/src"
  let envDep := ["/tmp/deb/.touch", "/tmp/built_packages/.touch", buildDir ++ "/.touch"]
  [.raw "# main target",
   .tgt { target := "all", depends := mainTargets,
          commands := [progressCommand (buildDepCount + 8)], phony := true },
   .raw "# build env",
   .tgt { target := "env_targets", depends := envDep }]
  ++ envDep.map (fun e =>
      .tgt { target := e, commands := ["mkdir -p $(shell dirname $@)", "touch $@"] })
  ++ [.raw "# python tools for build",
   .tgt { target := "python_tools", depends := ["/root/.ros/rosdep/sources.cache"],
          phony := true },
   .tgt { target := "/etc/ros/rosdep/sources.list.d",
          depends := ["/tmp/built_packages/rosdep"], commands := ["rosdep init"] },
   .tgt { target := "/root/.ros/rosdep/sources.cache",
          depends := ["/root/rosdep.yaml", "/etc/ros/rosdep/sources.list.d"],
          commands := ["echo \"yaml file:///root/rosdep.yaml\" > /etc/ros/rosdep/sources.list.d/99-custom.list", "rosdep update"] }]
  ++ rosReleasePythonItems buildDir
  ++ (pythonPackagesLadder.map (fun pd => pythonPackageItems buildDir envDep pd.1 pd.2)).flatten

/-- `BuildFarm.gen_makefile(makefile, main_targets, build_dep)`: the
accumulated target list, then the deduplicating write loop.  The result is
what is written: the surviving items in order, beside the skip diagnostics. -/
def genMakefile (db : DistCache) (vor : VersionOracle) (rosDistribution : String)
    (mainTargets : List String) (buildDep : List String) :
    Except GenError (List MakeItem × List Diagnostic) := do
  let buildDir := "/root/" ++ rosDistribution ++ "_build/src"
  let rosLists ← buildDep.mapM (rosPackageItems db vor buildDir buildDep)
  let items := headItems rosDistribution mainTargets buildDep.length
    ++ [.raw "# ROS packages to build"] ++ rosLists.flatten
    ++ [.tgt (cleanTarget buildDir)]
  return writeTargets items []

/-! ### Concrete fixtures -/

/-- A version oracle whose two comparisons always answer `false`. -/
def trivialOracle : VersionOracle :=
  ⟨fun _ _ => false, fun _ _ => false⟩

/-- A metadata snapshot whose declared dependencies form the two-package
cycle `A → B → A` (a cycle across non-sibling recursion levels). -/
def cycleDb : DistCache :=
  { repositories := [],
    releasePackageXmls := fun p =>
      if p = "A" then some [⟨"depend", "B", []⟩]
      else if p = "B" then some [⟨"depend", "A", []⟩]
      else none }

/-- A snapshot in which package `P` declares the dependency `X` twice: first
under a Python-2-only condition, then unconditionally. -/
def dupEdgeDb : DistCache :=
  { repositories := [],
    releasePackageXmls := fun p =>
      if p = "P" then
        some [⟨"depend", "X", [("condition", "$ROS_PYTHON_VERSION == 2")]⟩,
              ⟨"depend", "X", []⟩]
      else none }

/-- A snapshot in which package `P` declares `X` unconditionally and then
again under a Python-2-only condition (the filtered edge comes last). -/
def lateFilterDb : DistCache :=
  { repositories := [],
    releasePackageXmls := fun p =>
      if p = "P" then
        some [⟨"depend", "X", []⟩,
              ⟨"depend", "X", [("condition", "$ROS_PYTHON_VERSION == 2")]⟩]
      else none }

/-- A snapshot with one repository releasing the single package `foo`. -/
def tinyRepoDb : DistCache :=
  { repositories :=
      [("foo_repo",
        { releasePackages := some ["foo"],
          source := some { url := "https://example.org/foo.git", version := "1.0" } })],
    releasePackageXmls := fun p => if p = "foo" then some [] else none }

/-! ### Derived predicates -/

/-- The edge carries a `condition` attribute whose last token is not `"3"`,
i.e. the attribute loop removes the edge's target from the working set. -/
def conditionFails (e : XmlTag) : Prop :=
  ∃ kv ∈ e.attrib, kv.1 = "condition" ∧ lastToken kv.2 ≠ "3"

instance (e : XmlTag) : Decidable (conditionFails e) := by
  unfold conditionFails; infer_instance

/-- The target identifiers of the `MakefileTarget`s of an item list, in
order (raw comment lines carry none). -/
def targetIds : List MakeItem → List String
  | [] => []
  | .raw _ :: r => targetIds r
  | .tgt t :: r => t.target :: targetIds r

/-! ### Characterisation of the edge loop -/

theorem setRemove_idem (s : List String) (x : String) :
    setRemove (setRemove s x) x = setRemove s x := by
  simp [setRemove, List.filter_filter]

theorem stepAttrib_fst (vor : VersionOracle) (pv : String → Option String)
    (n : String) (st : List String × List Diagnostic) (kv : String × String) :
    (stepAttrib vor pv n st kv).1 =
      if kv.1 = "condition" ∧ lastToken kv.2 ≠ "3" then setRemove st.1 n else st.1 := by
  unfold stepAttrib
  split_ifs with h1 h2 h3 h4
  · rfl
  · cases pv n with
    | none => rfl
    | some v => dsimp only; split_ifs <;> rfl
  · cases pv n with
    | none => rfl
    | some v => dsimp only; split_ifs <;> rfl
  · rfl
  · rfl

theorem foldAttribs_fst (vor : VersionOracle) (pv : String → Option String)
    (n : String) :
    ∀ (attrs : List (String × String)) (s : List String) (d : List Diagnostic),
      (attrs.foldl (stepAttrib vor pv n) (s, d)).1 =
        if ∃ kv ∈ attrs, kv.1 = "condition" ∧ lastToken kv.2 ≠ "3"
        then setRemove s n else s := by
  intro attrs
  induction attrs with
  | nil => intro s d; simp
  | cons kv attrs ih =>
    intro s d
    rw [List.foldl_cons]
    rcases hst : stepAttrib vor pv n (s, d) kv with ⟨s', d'⟩
    have hs' : s' = if kv.1 = "condition" ∧ lastToken kv.2 ≠ "3"
        then setRemove s n else s := by
      have := stepAttrib_fst vor pv n (s, d) kv
      rw [hst] at this
      exact this
    rw [ih s' d']
    by_cases hkv : kv.1 = "condition" ∧ lastToken kv.2 ≠ "3"
    · rw [if_pos hkv] at hs'
      subst hs'
      rw [if_pos (show ∃ kv' ∈ kv :: attrs, kv'.1 = "condition" ∧ lastToken kv'.2 ≠ "3"
        from ⟨kv, List.mem_cons_self kv attrs, hkv⟩)]
      split_ifs with h
      · exact setRemove_idem s n
      · rfl
    · rw [if_neg hkv] at hs'
      subst hs'
      by_cases hrest : ∃ kv' ∈ attrs, kv'.1 = "condition" ∧ lastToken kv'.2 ≠ "3"
      · obtain ⟨kv', hkv', hp⟩ := hrest
        rw [if_pos (show ∃ kv' ∈ attrs, kv'.1 = "condition" ∧ lastToken kv'.2 ≠ "3"
            from ⟨kv', hkv', hp⟩),
          if_pos (show ∃ kv' ∈ kv :: attrs, kv'.1 = "condition" ∧ lastToken kv'.2 ≠ "3"
            from ⟨kv', List.mem_cons_of_mem kv hkv', hp⟩)]
      · rw [if_neg hrest,
          if_neg (show ¬ ∃ kv' ∈ kv :: attrs, kv'.1 = "condition" ∧ lastToken kv'.2 ≠ "3"
            from ?_)]
        rintro ⟨kv', hkv', hp⟩
        rcases List.mem_cons.mp hkv' with rfl | hm
        · exact hkv hp
        · exact hrest ⟨kv', hm, hp⟩

theorem processEdge_fst (vor : VersionOracle) (pv : String → Option String)
    (st : List String × List Diagnostic) (e : XmlTag) :
    (processEdge vor pv st e).1 =
      if conditionFails e then setRemove (setAdd st.1 e.text) e.text
      else setAdd st.1 e.text := by
  unfold processEdge conditionFails
  exact foldAttribs_fst vor pv e.text e.attrib (setAdd st.1 e.text) st.2

theorem mem_processEdge_fst (vor : VersionOracle) (pv : String → Option String)
    (st : List String × List Diagnostic) (e : XmlTag) (x : String) :
    x ∈ (processEdge vor pv st e).1 ↔
      (x = e.text ∧ ¬ conditionFails e) ∨ (x ≠ e.text ∧ x ∈ st.1) := by
  rw [processEdge_fst]
  split_ifs with h
  · rw [mem_setRemove, mem_setAdd]
    constructor
    · rintro ⟨rfl | hx, hne⟩
      · exact absurd rfl hne
      · exact Or.inr ⟨hne, hx⟩
    · rintro (⟨rfl, hf⟩ | ⟨hne, hx⟩)
      · exact absurd h hf
      · exact ⟨Or.inr hx, hne⟩
  · rw [mem_setAdd]
    constructor
    · rintro (rfl | hx)
      · exact Or.inl ⟨rfl, h⟩
      · by_cases hxe : x = e.text
        · exact Or.inl ⟨hxe, h⟩
        · exact Or.inr ⟨hxe, hx⟩
    · rintro (⟨rfl, _⟩ | ⟨_, hx⟩)
      · exact Or.inl rfl
      · exact Or.inr hx

theorem mem_foldl_processEdge (vor : VersionOracle) (pv : String → Option String)
    (x : String) :
    ∀ (edges : List XmlTag) (st : List String × List Diagnostic),
      x ∈ (edges.foldl (processEdge vor pv) st).1 ↔
        (∃ e, (edges.filter (fun e => e.text = x)).getLast? = some e ∧ ¬ conditionFails e)
        ∨ ((edges.filter (fun e => e.text = x)) = [] ∧ x ∈ st.1) := by
  intro edges
  induction edges using List.reverseRecOn with
  | nil => intro st; simp
  | append_singleton l e ih =>
    intro st
    rw [List.foldl_append, List.foldl_cons, List.foldl_nil, mem_processEdge_fst,
      List.filter_append]
    by_cases hx : e.text = x
    · subst hx
      rw [show (List.filter (fun e' => decide (e'.text = e.text)) [e]) = [e] by simp,
        List.getLast?_concat]
      constructor
      · rintro (⟨-, hf⟩ | ⟨hne, _⟩)
        · exact Or.inl ⟨e, rfl, hf⟩
        · exact absurd rfl hne
      · rintro (⟨e', he', hf⟩ | ⟨hcat, _⟩)
        · cases Option.some.inj he'
          exact Or.inl ⟨rfl, hf⟩
        · exact absurd hcat (by simp)
    · rw [show (List.filter (fun e' => decide (e'.text = x)) [e]) = [] by simp [hx],
        List.append_nil]
      constructor
      · rintro (⟨rfl, _⟩ | ⟨_, hmem⟩)
        · exact absurd rfl hx
        · exact (ih st).mp hmem
      · intro h
        exact Or.inr ⟨fun h' => hx h'.symm, (ih st).mpr h⟩

theorem mem_processDepends_fst (vor : VersionOracle) (pv : String → Option String)
    (edges : List XmlTag) (x : String) :
    x ∈ (processDepends vor pv edges).1 ↔
      ∃ e, (edges.filter (fun e => e.text = x)).getLast? = some e ∧ ¬ conditionFails e := by
  rw [processDepends, mem_foldl_processEdge]
  constructor
  · rintro (h | ⟨_, hmem⟩)
    · exact h
    · simp at hmem
  · exact Or.inl

/-! ### Resolver lemmas -/

theorem resolveList_isSome (recur : String → List String → Option (List String))
    (excl : List String) :
    ∀ (keys depends : List String),
      (∀ k ∈ keys, ∀ s, (recur k s).isSome) →
      (resolveList recur excl keys depends).isSome := by
  intro keys
  induction keys with
  | nil => intro depends _; simp [resolveList]
  | cons k ks ih =>
    intro depends h
    rw [resolveList]
    split_ifs with hk
    · exact ih depends (fun k' hk' => h k' (List.mem_cons_of_mem k hk'))
    · obtain ⟨child, hchild⟩ := Option.isSome_iff_exists.mp (h k (List.mem_cons_self k ks) depends)
      rw [hchild]
      exact ih (setUnion depends child) (fun k' hk' => h k' (List.mem_cons_of_mem k hk'))

theorem resolveList_congr (recur₁ recur₂ : String → List String → Option (List String))
    (excl : List String) (hrec : ∀ k s, recur₁ k s = recur₂ k s) :
    ∀ (keys depends : List String),
      resolveList recur₁ excl keys depends = resolveList recur₂ excl keys depends := by
  intro keys
  induction keys with
  | nil => intro depends; rfl
  | cons k ks ih =>
    intro depends
    rw [resolveList, resolveList]
    split_ifs with hk
    · exact ih depends
    · rw [hrec k depends]
      cases recur₂ k depends with
      | none => rfl
      | some child => exact ih (setUnion depends child)

theorem foldl_processEdge_fst_ext (vor₁ vor₂ : VersionOracle)
    (pv₁ pv₂ : String → Option String) :
    ∀ (edges : List XmlTag) (s : List String) (d₁ d₂ : List Diagnostic),
      (edges.foldl (processEdge vor₁ pv₁) (s, d₁)).1 =
        (edges.foldl (processEdge vor₂ pv₂) (s, d₂)).1 := by
  intro edges
  induction edges with
  | nil => intro s d₁ d₂; rfl
  | cons e edges ih =>
    intro s d₁ d₂
    rw [List.foldl_cons, List.foldl_cons]
    rcases h₁ : processEdge vor₁ pv₁ (s, d₁) e with ⟨s₁, l₁⟩
    rcases h₂ : processEdge vor₂ pv₂ (s, d₂) e with ⟨s₂, l₂⟩
    have e₁ := processEdge_fst vor₁ pv₁ (s, d₁) e
    have e₂ := processEdge_fst vor₂ pv₂ (s, d₂) e
    rw [h₁] at e₁
    rw [h₂] at e₂
    dsimp only at e₁ e₂
    have : s₁ = s₂ := by rw [e₁, e₂]
    subst this
    exact ih s₁ l₁ l₂

theorem processDepends_fst_ext (vor₁ vor₂ : VersionOracle)
    (pv₁ pv₂ : String → Option String) (edges : List XmlTag) :
    (processDepends vor₁ pv₁ edges).1 = (processDepends vor₂ pv₂ edges).1 :=
  foldl_processEdge_fst_ext vor₁ vor₂ pv₁ pv₂ edges [] [] []

theorem getPackageDependenciesNR_oracle_ext (db : DistCache)
    (vor₁ vor₂ : VersionOracle) (p : String) :
    getPackageDependenciesNR db vor₁ p = getPackageDependenciesNR db vor₂ p :=
  processDepends_fst_ext vor₁ vor₂ (getPackageVersion db) (getPackageVersion db)
    (getDependencies db p)

theorem getPackageDependenciesFuel_oracle_ext (db : DistCache)
    (vor₁ vor₂ : VersionOracle) :
    ∀ (fuel : Nat) (p : String) (excl : List String),
      getPackageDependenciesFuel db vor₁ fuel p excl =
        getPackageDependenciesFuel db vor₂ fuel p excl := by
  intro fuel
  induction fuel with
  | zero => intro p excl; rfl
  | succ n ih =>
    intro p excl
    rw [getPackageDependenciesFuel, getPackageDependenciesFuel,
      getPackageDependenciesNR_oracle_ext db vor₁ vor₂ p]
    exact resolveList_congr _ _ excl (fun k s => ih k s) _ _

/-! ### Write-loop lemmas -/

theorem writeTargets_sublist : ∀ (l : List MakeItem) (seen : List String),
    (writeTargets l seen).1.Sublist l := by
  intro l
  induction l with
  | nil => intro seen; simp [writeTargets]
  | cons i rest ih =>
    intro seen
    cases i with
    | raw s => exact (ih seen).cons₂ (.raw s)
    | tgt t =>
      rw [writeTargets]
      split_ifs with h
      · exact (ih seen).cons (.tgt t)
      · exact (ih (setAdd seen t.target)).cons₂ (.tgt t)

theorem writeTargets_nodup_aux : ∀ (l : List MakeItem) (seen : List String),
    (targetIds (writeTargets l seen).1).Nodup ∧
      ∀ x ∈ targetIds (writeTargets l seen).1, x ∉ seen := by
  intro l
  induction l with
  | nil => intro seen; simp [writeTargets, targetIds]
  | cons i rest ih =>
    intro seen
    cases i with
    | raw s =>
      rw [writeTargets]
      exact ih seen
    | tgt t =>
      rw [writeTargets]
      split_ifs with h
      · exact ih seen
      · obtain ⟨hnd, hni⟩ := ih (setAdd seen t.target)
        refine ⟨List.nodup_cons.mpr ⟨fun hmem => ?_, hnd⟩, ?_⟩
        · exact hni t.target hmem (mem_setAdd.mpr (Or.inl rfl))
        · intro x hx
          rcases List.mem_cons.mp hx with rfl | hx'
          · exact h
          · intro hxs
            exact hni x hx' (mem_setAdd.mpr (Or.inr hxs))

theorem writeTargets_first_kept :
    ∀ (l₁ : List MakeItem) (seen : List String) (t : MakefileTarget) (l₂ : List MakeItem),
      (∀ x ∈ targetIds l₁, x ≠ t.target) → t.target ∉ seen →
      MakeItem.tgt t ∈ (writeTargets (l₁ ++ .tgt t :: l₂) seen).1 := by
  intro l₁
  induction l₁ with
  | nil =>
    intro seen t l₂ _ hseen
    rw [List.nil_append, writeTargets, if_neg hseen]
    exact List.mem_cons_self _ _
  | cons i rest ih =>
    intro seen t l₂ hids hseen
    cases i with
    | raw s =>
      rw [List.cons_append, writeTargets]
      exact List.mem_cons_of_mem _ (ih seen t l₂ hids hseen)
    | tgt u =>
      have hne : u.target ≠ t.target := hids u.target (by rw [targetIds]; exact List.mem_cons_self _ _)
      have hids' : ∀ x ∈ targetIds rest, x ≠ t.target := by
        intro x hx
        exact hids x (by rw [targetIds]; exact List.mem_cons_of_mem _ hx)
      rw [List.cons_append, writeTargets]
      split_ifs with h
      · exact ih seen t l₂ hids' hseen
      · refine List.mem_cons_of_mem _ (ih (setAdd seen u.target) t l₂ hids' ?_)
        intro hmem
        rcases mem_setAdd.mp hmem with heq | hmem'
        · exact hne heq.symm
        · exact hseen hmem'

theorem writeTargets_count : ∀ (l : List MakeItem) (seen : List String),
    (targetIds l).length =
      (targetIds (writeTargets l seen).1).length + (writeTargets l seen).2.length := by
  intro l
  induction l with
  | nil => intro seen; simp [writeTargets, targetIds]
  | cons i rest ih =>
    intro seen
    cases i with
    | raw s =>
      rw [writeTargets, targetIds]
      exact ih seen
    | tgt t =>
      rw [writeTargets]
      split_ifs with h
      · rw [targetIds]
        dsimp only
        rw [List.length_cons, ih seen, List.length_cons]
        omega
      · rw [targetIds]
        dsimp only
        rw [List.length_cons, ih (setAdd seen t.target), targetIds, List.length_cons]
        omega

/-! ### `Except`-valued `mapM` error analysis -/

theorem mapM_error_mem {α : Type} (f : String → Except α (List MakeItem)) :
    ∀ (l : List String) (e : α), l.mapM f = .error e → ∃ p ∈ l, f p = .error e := by
  intro l
  induction l with
  | nil => intro e h; simp [List.mapM, List.mapM.loop, pure, Except.pure] at h
  | cons a l ih =>
    intro e h
    rw [List.mapM_cons] at h
    cases hfa : f a with
    | error e' =>
      rw [hfa] at h
      simp only [bind, Except.bind] at h
      cases h
      exact ⟨a, List.mem_cons_self a l, hfa⟩
    | ok b =>
      rw [hfa] at h
      simp only [bind, Except.bind] at h
      cases hrest : l.mapM f with
      | error e' =>
        rw [hrest] at h
        simp only [bind, Except.bind] at h
        cases h
        obtain ⟨p, hp, hfp⟩ := ih e hrest
        exact ⟨p, List.mem_cons_of_mem a hp, hfp⟩
      | ok bs =>
        rw [hrest] at h
        simp [bind, Except.bind, pure, Except.pure] at h

/-! ### Claim C1 — classification partitions the resolved set -/

/-- Claim C1 (counterexample): with both reference tables holding the key
`"a"` and input set `{"a"}`, the system and runtime classes returned by
`classify_packages` both contain `"a"`: they are not disjoint when a name
occurs as a key in both reference tables. -/
theorem classify_overlap_cex :
    ¬ Disjoint (classifyPackages [("a", [])] [("a", [])] {"a"}).1
        (classifyPackages [("a", [])] [("a", [])] {"a"}).2.1 :=
  Finset.not_disjoint_iff.mpr ⟨"a", by decide, by decide⟩

/-- Claim C1 (amended): `classify_packages(R)` returns
`(base_keys ∩ R, python_keys ∩ R, (R - system) - runtime)`: the three classes
cover `R` exactly and the build-from-source class is disjoint from each of
the other two, while the system and runtime classes overlap exactly on
`base_keys ∩ python_keys ∩ R` — so they are disjoint iff no member of `R` is
a key of both reference tables. -/
theorem classify_partition_amended (base python : RefTable) (R : Finset String) :
    ((classifyPackages base python R).1 ∪ (classifyPackages base python R).2.1
        ∪ (classifyPackages base python R).2.2 = R)
    ∧ Disjoint (classifyPackages base python R).1 (classifyPackages base python R).2.2
    ∧ Disjoint (classifyPackages base python R).2.1 (classifyPackages base python R).2.2
    ∧ (classifyPackages base python R).1 ∩ (classifyPackages base python R).2.1
        = (tableKeys base ∩ tableKeys python) ∩ R := by
  simp only [classifyPackages]
  refine ⟨?_, ?_, ?_, ?_⟩
  · ext x
    simp only [Finset.mem_union, Finset.mem_inter, Finset.mem_sdiff]
    tauto
  · rw [Finset.disjoint_left]
    intro a ha hb
    simp only [Finset.mem_inter, Finset.mem_sdiff] at ha hb
    tauto
  · rw [Finset.disjoint_left]
    intro a ha hb
    simp only [Finset.mem_inter, Finset.mem_sdiff] at ha hb
    tauto
  · ext x
    simp only [Finset.mem_inter]
    tauto

/-! ### Claim C2 — condition filtering -/

/-- Claim C2 (counterexample): package `P` of `dupEdgeDb` carries a dependency
edge to `X` whose `condition` value `"$ROS_PYTHON_VERSION == 2"` has last
token `"2" ≠ "3"`, yet `get_package_dependencies("P")` returns `{X}`: a later
unconditioned edge to the same name re-adds the name the filtered edge
removed. -/
theorem condition_filter_cex :
    ((⟨"depend", "X", [("condition", "$ROS_PYTHON_VERSION == 2")]⟩ : XmlTag)
        ∈ getDependencies dupEdgeDb "P")
    ∧ lastToken "$ROS_PYTHON_VERSION == 2" ≠ "3"
    ∧ getPackageDependenciesFuel dupEdgeDb trivialOracle 2 "P" [] = some ["X"] :=
  ⟨by decide, by decide, by decide⟩

/-- Claim C2 (amended): condition filtering removes the target *name*, so the
resolved set retains a name exactly when the *last* edge declaring it carries
no failing condition.  In particular an edge whose condition's last token is
not `"3"` keeps its target out of the non-recursive resolved set unless a
later edge with the same target re-adds it, and an edge whose condition's
last token is `"3"` is retained whenever no later failing edge shares its
target. -/
theorem condition_filter_last_edge (db : DistCache) (vor : VersionOracle)
    (p x : String) :
    x ∈ getPackageDependenciesNR db vor p ↔
      ∃ e, ((getDependencies db p).filter (fun e => e.text = x)).getLast? = some e
        ∧ ¬ conditionFails e :=
  mem_processDepends_fst vor (getPackageVersion db) (getDependencies db p) x

/-! ### Claim C9 — removal is by dependency name, not by edge -/

/-- Claim C9: if a package declares an active edge to `n` but the last edge
declaring `n` carries a failing condition, then `n` is removed from the
resolved set — an active edge's target can be absent from the result. -/
theorem removal_by_name (db : DistCache) (vor : VersionOracle) (p n : String)
    (e₁ e₂ : XmlTag) (_h₁ : e₁ ∈ getDependencies db p) (_h₁t : e₁.text = n)
    (_h₁a : ¬ conditionFails e₁)
    (h₂ : ((getDependencies db p).filter (fun e => e.text = n)).getLast? = some e₂)
    (h₂f : conditionFails e₂) :
    n ∉ getPackageDependenciesNR db vor p := by
  intro hmem
  obtain ⟨e, he, hact⟩ := (mem_processDepends_fst vor (getPackageVersion db)
    (getDependencies db p) n).mp hmem
  rw [h₂] at he
  cases Option.some.inj he
  exact hact h₂f

/-- Claim C9 (witness): in `lateFilterDb`, `P` declares `X` unconditionally
and then under a Python-2 condition; `X` is absent from the resolved set. -/
theorem removal_by_name_witness :
    "X" ∉ getPackageDependenciesNR lateFilterDb trivialOracle "P" :=
  removal_by_name lateFilterDb trivialOracle "P" "X"
    ⟨"depend", "X", []⟩ ⟨"depend", "X", [("condition", "$ROS_PYTHON_VERSION == 2")]⟩
    (by decide) rfl (by decide) (by decide) (by decide)

/-! ### Claim C3 — termination of the recursive resolver -/

theorem cycle_stuck : ∀ fuel : Nat,
    getPackageDependenciesFuel cycleDb trivialOracle fuel "B" ["B"] = none ∧
    getPackageDependenciesFuel cycleDb trivialOracle fuel "A" ["A"] = none := by
  intro fuel
  induction fuel with
  | zero => exact ⟨rfl, rfl⟩
  | succ n ih =>
    constructor
    · show resolveList (getPackageDependenciesFuel cycleDb trivialOracle n) ["B"]
        (getPackageDependenciesNR cycleDb trivialOracle "B")
        (getPackageDependenciesNR cycleDb trivialOracle "B") = none
      rw [show getPackageDependenciesNR cycleDb trivialOracle "B" = ["A"] from rfl,
        resolveList, if_neg (by decide : ¬ ("A" ∈ ["B"])), ih.2]
    · show resolveList (getPackageDependenciesFuel cycleDb trivialOracle n) ["A"]
        (getPackageDependenciesNR cycleDb trivialOracle "A")
        (getPackageDependenciesNR cycleDb trivialOracle "A") = none
      rw [show getPackageDependenciesNR cycleDb trivialOracle "A" = ["B"] from rfl,
        resolveList, if_neg (by decide : ¬ ("B" ∈ ["A"])), ih.1]

/-- Claim C3: whenever a rank function witnesses that the declared dependency
graph of the snapshot is acyclic (each filtered direct dependency ranks
strictly below its dependent — for a finite snapshot such a rank exists
exactly when the graph is acyclic), the recursive resolver terminates from
every package and exclusion set, with fuel bounded by the rank; and on the
two-package cycle `A → B → A` of `cycleDb` (a cycle across non-sibling
levels, which the sibling-set exclusion does not break) it exhausts any
amount of fuel. -/
theorem resolver_rank_termination :
    (∀ (db : DistCache) (vor : VersionOracle) (rank : String → Nat),
      (∀ p d, d ∈ getPackageDependenciesNR db vor p → rank d < rank p) →
      ∀ (fuel : Nat) (p : String) (excl : List String), rank p < fuel →
        (getPackageDependenciesFuel db vor fuel p excl).isSome)
    ∧ (∀ fuel : Nat, getPackageDependenciesFuel cycleDb trivialOracle fuel "A" [] = none) := by
  constructor
  · intro db vor rank hrank fuel
    induction fuel with
    | zero => intro p excl h; omega
    | succ n ih =>
      intro p excl h
      show (resolveList (getPackageDependenciesFuel db vor n) excl
        (getPackageDependenciesNR db vor p) (getPackageDependenciesNR db vor p)).isSome
      apply resolveList_isSome
      intro k hk s
      exact ih k s (by have := hrank p k hk; omega)
  · intro fuel
    cases fuel with
    | zero => rfl
    | succ n =>
      show resolveList (getPackageDependenciesFuel cycleDb trivialOracle n) []
        (getPackageDependenciesNR cycleDb trivialOracle "A")
        (getPackageDependenciesNR cycleDb trivialOracle "A") = none
      rw [show getPackageDependenciesNR cycleDb trivialOracle "A" = ["B"] from rfl,
        resolveList, if_neg (by decide : ¬ ("B" ∈ ([] : List String))),
        (cycle_stuck n).1]

/-! ### Claim C4 — duplicate-target suppression -/

/-- Claim C4: in the plan the write loop of `gen_makefile` emits, target
identifiers are pairwise distinct; the emitted items are a verbatim
subsequence of the accumulated list (a duplicate is dropped whole, never
merged); the first target carrying a given identifier always survives; each
dropped duplicate leaves exactly one diagnostic (targets in = targets out +
diagnostics); and every successful `gen_makefile` run emits duplicate-free
target identifiers. -/
theorem makefile_dedup_unique :
    (∀ l : List MakeItem, (targetIds (writeTargets l []).1).Nodup)
    ∧ (∀ l : List MakeItem, (writeTargets l []).1.Sublist l)
    ∧ (∀ (l₁ : List MakeItem) (t : MakefileTarget) (l₂ : List MakeItem),
        (∀ x ∈ targetIds l₁, x ≠ t.target) →
        MakeItem.tgt t ∈ (writeTargets (l₁ ++ .tgt t :: l₂) []).1)
    ∧ (∀ l : List MakeItem,
        (targetIds l).length =
          (targetIds (writeTargets l []).1).length + (writeTargets l []).2.length)
    ∧ (∀ (db : DistCache) (vor : VersionOracle) (rd : String) (mt : List String)
        (bd : List String) (out : List MakeItem × List Diagnostic),
        genMakefile db vor rd mt bd = .ok out → (targetIds out.1).Nodup) := by
  refine ⟨fun l => (writeTargets_nodup_aux l []).1,
    fun l => writeTargets_sublist l [],
    fun l₁ t l₂ h => writeTargets_first_kept l₁ [] t l₂ h (by simp),
    fun l => writeTargets_count l [],
    ?_⟩
  intro db vor rd mt bd out h
  unfold genMakefile at h
  dsimp only at h
  cases hm : bd.mapM (rosPackageItems db vor ("/root/" ++ rd ++ "_build/src") bd) with
  | error e =>
    rw [hm] at h
    simp [bind, Except.bind] at h
  | ok ls =>
    rw [hm] at h
    simp only [bind, Except.bind, pure, Except.pure] at h
    cases h
    exact (writeTargets_nodup_aux _ []).1

/-! ### Claim C5 — the aggregate target and its progress total -/

/-- Claim C5: in every plan `gen_makefile` emits, the aggregate target (the
item after the `# main target` comment) is the phony `all` target, it depends
on exactly the supplied root targets, and its single command is the progress
report against the expected total `len(build_dep) + 8`. -/
theorem makefile_all_target (db : DistCache) (vor : VersionOracle) (rd : String)
    (mt : List String) (bd : List String) (out : List MakeItem × List Diagnostic)
    (h : genMakefile db vor rd mt bd = .ok out) :
    out.1[1]? = some (.tgt
      { target := "all", depends := mt,
        commands := [progressCommand (bd.length + 8)], phony := true }) := by
  unfold genMakefile at h
  dsimp only at h
  cases hm : bd.mapM (rosPackageItems db vor ("/root/" ++ rd ++ "_build/src") bd) with
  | error e =>
    rw [hm] at h
    simp [bind, Except.bind] at h
  | ok ls =>
    rw [hm] at h
    simp only [bind, Except.bind, pure, Except.pure] at h
    cases h
    rfl

/-- Claim C5 (witness): at the concrete inputs `main_targets = ["desktop"]`
and an empty build set, the emitted aggregate target depends on `["desktop"]`
and reports the total `0 + 8 = 8`. -/
theorem makefile_all_target_witness :
    ((genMakefile cycleDb trivialOracle "noetic" ["desktop"] []).map
      (fun out => out.1[1]?)) =
    .ok (some (.tgt
      { target := "all", depends := ["desktop"],
        commands := [progressCommand 8], phony := true })) := by
  obtain ⟨out, hout⟩ :
      ∃ out, genMakefile cycleDb trivialOracle "noetic" ["desktop"] [] = .ok out :=
    ⟨_, rfl⟩
  rw [hout]
  simp only [Except.map]
  rw [makefile_all_target cycleDb trivialOracle "noetic" ["desktop"] [] out hout]
  rfl

/-! ### Claim C6 — version bounds are diagnostic-only -/

/-- Claim C6: version checking never affects resolution.  The resolver's
result is invariant under any change of the version comparisons; an edge
whose only qualifier is a version bound resolves to its target with no
diagnostic when the dependency has no declared version (silent skip), and
with exactly one warning — the name still included — when the bound check
fires.  (All embedded functions are total: no exception is modelled because
none escapes these branches.) -/
theorem version_bounds_diag_only :
    (∀ (db : DistCache) (vor₁ vor₂ : VersionOracle) (fuel : Nat) (p : String)
        (excl : List String),
      getPackageDependenciesFuel db vor₁ fuel p excl =
        getPackageDependenciesFuel db vor₂ fuel p excl)
    ∧ (∀ (vor : VersionOracle) (pv : String → Option String) (t n v : String),
        pv n = none →
        processDepends vor pv [⟨t, n, [("version_gte", v)]⟩] = ([n], []))
    ∧ (∀ (vor : VersionOracle) (pv : String → Option String) (t n v : String),
        pv n = none →
        processDepends vor pv [⟨t, n, [("version_gt", v)]⟩] = ([n], []))
    ∧ (∀ (vor : VersionOracle) (pv : String → Option String) (t n v pv₀ : String),
        pv n = some pv₀ → vor.geB v pv₀ = true →
        processDepends vor pv [⟨t, n, [("version_gte", v)]⟩]
          = ([n], [.versionBound n v pv₀]))
    ∧ (∀ (vor : VersionOracle) (pv : String → Option String) (t n v pv₀ : String),
        pv n = some pv₀ → vor.gtB v pv₀ = true →
        processDepends vor pv [⟨t, n, [("version_gt", v)]⟩]
          = ([n], [.versionBound n v pv₀])) := by
  refine ⟨fun db vor₁ vor₂ => getPackageDependenciesFuel_oracle_ext db vor₁ vor₂,
    ?_, ?_, ?_, ?_⟩
  · intro vor pv t n v hpv
    simp [processDepends, processEdge, stepAttrib, setAdd, hpv]
  · intro vor pv t n v hpv
    simp [processDepends, processEdge, stepAttrib, setAdd, hpv]
  · intro vor pv t n v pv₀ hpv hge
    simp [processDepends, processEdge, stepAttrib, setAdd, hpv, hge]
  · intro vor pv t n v pv₀ hpv hgt
    simp [processDepends, processEdge, stepAttrib, setAdd, hpv, hgt]

/-! ### Claim C7 — missing release descriptors are tolerated -/

/-- Claim C7: a package whose release descriptor is absent from the
distribution cache has version `none` and an empty dependency list, and its
recursive resolution returns the empty set (in one step, for any fuel);
no embedded branch fails. -/
theorem missing_descriptor_tolerant (db : DistCache) (p : String)
    (h : db.releasePackageXmls p = none) :
    getPackageVersion db p = none ∧ getDependencies db p = [] ∧
      ∀ (vor : VersionOracle) (excl : List String) (fuel : Nat),
        getPackageDependenciesFuel db vor (fuel + 1) p excl = some [] := by
  have hx : ∀ tags, getXmlDataByTags db p tags = [] := by
    intro tags
    unfold getXmlDataByTags
    rw [h]
  refine ⟨?_, hx dependencyTags, ?_⟩
  · unfold getPackageVersion
    rw [hx ["version"]]
    rfl
  · intro vor excl fuel
    show resolveList (getPackageDependenciesFuel db vor fuel) excl
      (getPackageDependenciesNR db vor p) (getPackageDependenciesNR db vor p) = some []
    have hnr : getPackageDependenciesNR db vor p = [] := by
      unfold getPackageDependenciesNR getDependencies
      rw [hx dependencyTags]
      rfl
    rw [hnr]
    rfl

/-- Claim C7 (witness): the package `Z` is absent from `cycleDb`; its version
is `none`, its dependency list empty, its resolved set empty. -/
theorem missing_descriptor_witness :
    getPackageVersion cycleDb "Z" = none ∧ getDependencies cycleDb "Z" = [] ∧
      getPackageDependenciesFuel cycleDb trivialOracle 1 "Z" [] = some [] := by
  have h := missing_descriptor_tolerant cycleDb "Z" rfl
  exact ⟨h.1, h.2.1, h.2.2 trivialOracle [] 0⟩

/-! ### Claim C8 — reference-entry resolution forms -/

/-- Claim C8: for a classified name `n`, `get_package_names` uses a flat-list
entry verbatim; for a per-distribution mapping it takes the exact target
distribution's list when that key is present, falls back to the wildcard
`"*"` when absent, contributes nothing for a wildcard mapped to an explicit
`null`, and contributes nothing but one diagnostic when neither the exact key
nor a wildcard exists. -/
theorem name_mapping_entry_forms :
    (∀ (n dist : String) (l : List String),
      getPackageNames [(n, [("ubuntu", some (.pkglist l))])] [] dist [n] []
        = .ok (setUnion [] l, []))
    ∧ (∀ (n dist : String) (m : List (String × Option (List String))) (l : List String),
        lookupA m dist = some (some l) →
        getPackageNames [(n, [("ubuntu", some (.distmap m))])] [] dist [n] []
          = .ok (setUnion [] l, []))
    ∧ (∀ (n dist : String) (m : List (String × Option (List String))) (l : List String),
        lookupA m dist = none → lookupA m "*" = some (some l) →
        getPackageNames [(n, [("ubuntu", some (.distmap m))])] [] dist [n] []
          = .ok (setUnion [] l, []))
    ∧ (∀ (n dist : String) (m : List (String × Option (List String))),
        lookupA m dist = none → lookupA m "*" = some none →
        getPackageNames [(n, [("ubuntu", some (.distmap m))])] [] dist [n] []
          = .ok ([], []))
    ∧ (∀ (n dist : String) (m : List (String × Option (List String))),
        lookupA m dist = none → lookupA m "*" = none →
        getPackageNames [(n, [("ubuntu", some (.distmap m))])] [] dist [n] []
          = .ok ([], [.packageNamesNotFound dist])) := by
  refine ⟨?_, ?_, ?_, ?_, ?_⟩
  · intro n dist l
    simp [getPackageNames, osEntry, lookupA, processEntry, bind, Except.bind,
      pure, Except.pure, List.foldlM, List.mapM.loop]
  · intro n dist m l hd
    simp only [lookupA] at hd
    simp [getPackageNames, osEntry, lookupA, processEntry, bind, Except.bind,
      pure, Except.pure, List.foldlM, List.mapM.loop, hd]
  · intro n dist m l hd hw
    simp only [lookupA] at hd hw
    simp [getPackageNames, osEntry, lookupA, processEntry, bind, Except.bind,
      pure, Except.pure, List.foldlM, List.mapM.loop, hd, hw]
  · intro n dist m hd hw
    simp only [lookupA] at hd hw
    simp [getPackageNames, osEntry, lookupA, processEntry, bind, Except.bind,
      pure, Except.pure, List.foldlM, List.mapM.loop, hd, hw]
  · intro n dist m hd hw
    simp only [lookupA] at hd hw
    simp [getPackageNames, osEntry, lookupA, processEntry, bind, Except.bind,
      pure, Except.pure, List.foldlM, List.mapM.loop, hd, hw]

/-! ### Claim C10 — the unguarded repository subscript -/

/-- Claim C10: `get_repository` answers `none` (Python `(None, None)`) exactly
when no repository's effective release package list contains the package; and
whenever every member of the build set has a repository entry, `gen_makefile`
cannot fail by subscripting that `None` repository — the `repoNotFound`
failure is unreachable under the precondition. -/
theorem repository_lookup_guard :
    (∀ (repos : List (String × RepoInfo)) (p : String),
      getRepository repos p = none ↔ ∀ kv ∈ repos, p ∉ effectivePackages kv.1 kv.2)
    ∧ (∀ (db : DistCache) (vor : VersionOracle) (rd : String) (mt bd : List String),
        (∀ p ∈ bd, (getRepository db.repositories p).isSome) →
        ∀ pkg : String, genMakefile db vor rd mt bd ≠ .error (.repoNotFound pkg)) := by
  constructor
  · intro repos p
    unfold getRepository
    rw [List.find?_eq_none]
    simp
  · intro db vor rd mt bd h pkg hcontra
    unfold genMakefile at hcontra
    dsimp only at hcontra
    cases hm : bd.mapM (rosPackageItems db vor ("/root/" ++ rd ++ "_build/src") bd) with
    | ok ls =>
      rw [hm] at hcontra
      simp [bind, Except.bind, pure, Except.pure] at hcontra
    | error e =>
      rw [hm] at hcontra
      simp only [bind, Except.bind] at hcontra
      cases hcontra
      obtain ⟨p, hp, hfp⟩ := mapM_error_mem _ bd _ hm
      obtain ⟨q, hq⟩ := Option.isSome_iff_exists.mp (h p hp)
      rcases q with ⟨rn, info⟩
      unfold rosPackageItems at hfp
      rw [hq] at hfp
      dsimp only at hfp
      cases hsrc : info.source with
      | none =>
        rw [hsrc] at hfp
        simp at hfp
      | some src =>
        rw [hsrc] at hfp
        simp at hfp

end BuildEnv
